import Mathlib

/-!
Verification of the task-registry core of `src/main.go` (package main of the
Bober repository).  The registry state is the trio of package-level variables
`tasks`, `taskIDCounter` and `operations`; the four handlers `addTask`,
`getTaskStatus`, `getTaskForExecution` and `handleResult`, plus the read-only
`getOperations`, are embedded as pure functions on that state.  Every handler
body runs under the single mutex `tasksMutex` for its full duration, so the
behaviour of the concurrent server is the behaviour of an arbitrary sequential
interleaving of these state transformers; concurrency claims are settled over
that interleaving model.

Representation choices, all mirroring the Go source:
* Go `int` fields (`ID`, `Duration`) become `Int`.
* Go `string` fields stay `String`; status tags are the literal strings
  "pending", "in_progress", "completed" that the source writes.
* Go `float64` (`Result`) becomes Lean `Float`; the core never computes with a
  result, it only stores and returns it, so no floating-point arithmetic is
  modelled.  The Go zero value is `0`.
* Go `time.Time` (`StartTime`) becomes `Nat`: an abstract tick count, where
  `0` is Go's zero time (the unset value) and `time.Now()` is a positive
  parameter `now` supplied to the step.
-/

namespace Bober

/-- Task mirrors the Go struct `Task`: id, expression, status tag, result
(float64, zero value 0) and start time (time.Time, zero value 0). -/
structure Task where
  ID : Int
  Expression : String
  Status : String
  Result : Float
  StartTime : Nat

/-- Operation mirrors the Go struct `Operation`: operator symbol and its
simulated duration in seconds. -/
structure Operation where
  Operator : String
  Duration : Int
deriving DecidableEq

/-- RegistryState bundles the package-level mutable variables of `main.go`
that the handlers share under `tasksMutex`: the task list `tasks`, the id
counter `taskIDCounter`, and the operation list `operations` (declared
`var`, hence part of the mutable state, though no handler ever writes it). -/
structure RegistryState where
  tasks : List Task
  taskIDCounter : Int
  operations : List Operation

/-- operationsCatalog is the initialiser of the Go package variable
`operations`: the four supported operators with their costs, in source
order. -/
def operationsCatalog : List Operation :=
  [{ Operator := "+", Duration := 2 }, { Operator := "-", Duration := 2 },
   { Operator := "*", Duration := 4 }, { Operator := "/", Duration := 4 }]

/-- initState is the Go package state at process start: empty `tasks` slice,
`taskIDCounter = 0`, and the static operation list. -/
def initState : RegistryState :=
  { tasks := [], taskIDCounter := 0, operations := operationsCatalog }

/-- addTask embeds the handler `addTask` (main.go lines 48-71) after a
successful decode of the request body: increment `taskIDCounter`, append a
new task with the incremented id, the request expression, status "pending"
and zero-valued `Result` and `StartTime`, and answer with the new id. -/
def addTask (expression : String) (s : RegistryState) : Int × RegistryState :=
  let counter := s.taskIDCounter + 1
  let newTask : Task :=
    { ID := counter, Expression := expression, Status := "pending",
      Result := 0, StartTime := 0 }
  (counter, { s with taskIDCounter := counter, tasks := s.tasks ++ [newTask] })

/-- getTaskStatus embeds the handler `getTaskStatus` (main.go lines 74-88):
scan `tasks` in order and return (a copy of) the first task whose id, printed
by `strconv.Itoa`, equals the raw query string; `none` models the
`http.NotFound` reply.  `Int.repr` is the Lean rendering of `strconv.Itoa`:
minus sign for negatives, canonical decimal digits, no padding. -/
def getTaskStatus (taskID : String) (s : RegistryState) : Option Task :=
  s.tasks.find? fun task => Int.repr task.ID == taskID

/-- getOperations embeds the handler `getOperations` (main.go lines 91-94):
it encodes the `operations` list unchanged and cannot fail. -/
def getOperations (s : RegistryState) : List Operation :=
  s.operations

/-- claimScan is the loop body of `getTaskForExecution` (main.go lines
102-110): walk the list; at the first task with status "pending" overwrite
the stored element's status with "in_progress" and its start time with `now`,
and hand back the loop variable `task` — the copy taken BEFORE the two
writes, exactly as the Go range loop does — together with the updated list.
`none` means no pending task was found and the list is untouched. -/
def claimScan (now : Nat) : List Task → Option (Task × List Task)
  | [] => none
  | task :: rest =>
    if task.Status == "pending" then
      some (task, { task with Status := "in_progress", StartTime := now } :: rest)
    else
      match claimScan now rest with
      | some (ret, rest') => some (ret, task :: rest')
      | none => none

/-- getTaskForExecution embeds the handler `getTaskForExecution` (main.go
lines 97-113): claim the first pending task at time `now`; on success the
encoded reply is the pre-mutation copy `task` (the Go range variable), on
failure the reply is `http.NotFound` and the state is unchanged. -/
def getTaskForExecution (now : Nat) (s : RegistryState) :
    Option Task × RegistryState :=
  match claimScan now s.tasks with
  | some (ret, newTasks) => (some ret, { s with tasks := newTasks })
  | none => (none, s)

/-- replaceFirst is the loop of `handleResult` (main.go lines 126-131):
replace the first stored task whose id equals the reported record's id by the
reported record in full, then `break`; a list with no matching id comes back
unchanged. -/
def replaceFirst (rep : Task) : List Task → List Task
  | [] => []
  | t :: rest =>
    if t.ID == rep.ID then rep :: rest else t :: replaceFirst rep rest

/-- handleResult embeds the handler `handleResult` (main.go lines 116-134)
after a successful decode: overwrite the first task with the reported id (if
any) by the client-supplied record, and unconditionally answer
`http.StatusNoContent` (204). -/
def handleResult (rep : Task) (s : RegistryState) : Nat × RegistryState :=
  (204, { s with tasks := replaceFirst rep s.tasks })

/-- Op is one serialized pass through a mutating handler's critical section;
`status` and `listOps` are the read-only handlers, which mutate nothing.
`claim` and the other steps carry the data the handler reads from outside the
registry (the decoded request body, the query string, the clock). -/
inductive Op where
  | create (expression : String)
  | claim (now : Nat)
  | report (rep : Task)
  | status (taskID : String)
  | listOps

/-- applyOp runs one handler's critical section for its state effect. -/
def applyOp (s : RegistryState) (op : Op) : RegistryState :=
  match op with
  | Op.create e => (addTask e s).2
  | Op.claim now => (getTaskForExecution now s).2
  | Op.report rep => (handleResult rep s).2
  | Op.status _ => s
  | Op.listOps => s

/-- runOps is the registry state after a sequence of serialized handler
passes starting from process start. -/
def runOps (ops : List Op) : RegistryState :=
  ops.foldl applyOp initState

/-- taskStatus reads the status of the (first) stored task with the given id,
the observation the status-monotonicity claims are about. -/
def taskStatus (s : RegistryState) (id : Int) : Option String :=
  (s.tasks.find? fun t => t.ID == id).map Task.Status

/-- pendingCount counts the stored tasks whose status is "pending". -/
def pendingCount (ts : List Task) : Nat :=
  ts.countP fun t => t.Status == "pending"

/-- runClaims executes a batch of claim_next invocations, serialized by
`tasksMutex`, and collects each caller's reply in order. -/
def runClaims (s : RegistryState) : List Nat → List (Option Task) × RegistryState
  | [] => ([], s)
  | now :: rest =>
    let r := getTaskForExecution now s
    let rr := runClaims r.2 rest
    (r.1 :: rr.1, rr.2)

/-- createdIds lists, in order, the ids handed out by the create steps of a
run, starting from state `s`. -/
def createdIds (s : RegistryState) : List Op → List Int
  | [] => []
  | op :: rest =>
    match op with
    | Op.create e => (addTask e s).1 :: createdIds (applyOp s op) rest
    | _ => createdIds (applyOp s op) rest

/-- digits10 is the big-endian decimal digit list of a natural number: the
recursion that `Nat.toDigitsCore` (the engine behind `Nat.repr`, our model of
`strconv.Itoa`) implements with an explicit fuel argument. -/
def digits10 (n : Nat) : List Char :=
  if _h : n < 10 then [Nat.digitChar n]
  else digits10 (n / 10) ++ [Nat.digitChar (n % 10)]
decreasing_by exact Nat.div_lt_self (by omega) (by omega)

/-- digitVal inverts `Nat.digitChar` on the ten decimal digit characters. -/
def digitVal (c : Char) : Nat :=
  if c = '0' then 0 else if c = '1' then 1 else if c = '2' then 2 else
  if c = '3' then 3 else if c = '4' then 4 else if c = '5' then 5 else
  if c = '6' then 6 else if c = '7' then 7 else if c = '8' then 8 else
  if c = '9' then 9 else 0

/-- digitsVal reads a big-endian decimal digit list back as a number. -/
def digitsVal (cs : List Char) : Nat :=
  cs.foldl (fun a c => 10 * a + digitVal c) 0

/-- idsBounded is the reachable-state invariant the round-trip claim needs:
the id counter is non-negative and every stored id lies in [0, counter]. -/
def idsBounded (s : RegistryState) : Prop :=
  0 ≤ s.taskIDCounter ∧ ∀ t ∈ s.tasks, 0 ≤ t.ID ∧ t.ID ≤ s.taskIDCounter

/-- repUnknown is a report whose id 9999 matches no task of `demoState`. -/
def repUnknown : Task :=
  { ID := 9999, Expression := "2*2", Status := "completed",
    Result := 4, StartTime := 7 }

/-- repDone is a report completing task 1 of `demoState`. -/
def repDone : Task :=
  { ID := 1, Expression := "1+1", Status := "completed",
    Result := 2, StartTime := 5 }

/-- demoState is a concrete registry holding exactly one pending task, used
to instantiate the hypotheses of the general theorems. -/
def demoState : RegistryState :=
  { tasks := [{ ID := 1, Expression := "1+1", Status := "pending",
                Result := 0, StartTime := 0 }],
    taskIDCounter := 1, operations := operationsCatalog }

/-! ### Lemmas about the claim scan -/

theorem claimScan_none_iff (now : Nat) (ts : List Task) :
    claimScan now ts = none ↔ ∀ t ∈ ts, t.Status ≠ "pending" := by
  induction ts with
  | nil => simp [claimScan]
  | cons t rest ih =>
    by_cases hp : t.Status = "pending"
    · simp [claimScan, hp]
    · cases hscan : claimScan now rest with
      | none =>
        simp only [claimScan, hscan]
        simp [hp]
        exact ih.1 hscan
      | some pr =>
        obtain ⟨ret, rest'⟩ := pr
        simp only [claimScan, hscan]
        have hne : ¬ ∀ t ∈ rest, t.Status ≠ "pending" := fun hall =>
          by simp [ih.2 hall] at hscan
        simp [hp]
        push_neg at hne
        exact hne

theorem claimScan_some (now : Nat) (ts : List Task) (ret : Task)
    (ts' : List Task) (h : claimScan now ts = some (ret, ts')) :
    ∃ pre post, ts = pre ++ ret :: post ∧
      (∀ u ∈ pre, u.Status ≠ "pending") ∧ ret.Status = "pending" ∧
      ts' = pre ++ { ret with Status := "in_progress", StartTime := now } :: post := by
  induction ts generalizing ts' with
  | nil => simp [claimScan] at h
  | cons t rest ih =>
    by_cases hp : t.Status = "pending"
    · simp only [claimScan, hp] at h
      simp at h
      obtain ⟨h1, h2⟩ := h
      subst h1
      exact ⟨[], rest, rfl, by simp, hp, by simp [h2.symm]⟩
    · cases hscan : claimScan now rest with
      | none => simp [claimScan, hp, hscan] at h
      | some pr =>
        obtain ⟨r, rest'⟩ := pr
        simp only [claimScan, hp] at h
        rw [hscan] at h
        simp [hp] at h
        obtain ⟨h1, h2⟩ := h
        subst h1
        obtain ⟨pre, post, e1, e2, e3, e4⟩ := ih rest' hscan
        refine ⟨t :: pre, post, by simp [e1], ?_, e3, by simp [e4, h2.symm]⟩
        intro u hu
        rcases List.mem_cons.1 hu with h3 | h3
        · subst h3; exact hp
        · exact e2 u h3

/-- C2: claim_next scans the stored tasks in creation order and claims the
first one whose status is "pending", setting that stored record's status to
"in_progress" and its start time to the claim time; it replies NotFound, with
the state unchanged, exactly when no stored task is pending. -/
theorem getTaskForExecution_first_pending (now : Nat) (s : RegistryState) :
    (getTaskForExecution now s = (none, s) ↔ ∀ t ∈ s.tasks, t.Status ≠ "pending") ∧
    (∀ ret s', getTaskForExecution now s = (some ret, s') →
      ∃ pre post, s.tasks = pre ++ ret :: post ∧
        (∀ u ∈ pre, u.Status ≠ "pending") ∧ ret.Status = "pending" ∧
        s' = { s with tasks :=
          pre ++ { ret with Status := "in_progress", StartTime := now } :: post }) := by
  constructor
  · constructor
    · intro h
      cases hscan : claimScan now s.tasks with
      | none => exact (claimScan_none_iff now s.tasks).1 hscan
      | some pr =>
        obtain ⟨ret, ts'⟩ := pr
        simp [getTaskForExecution, hscan] at h
    · intro h
      simp [getTaskForExecution, (claimScan_none_iff now s.tasks).2 h]
  · intro ret s' h
    cases hscan : claimScan now s.tasks with
    | none => simp [getTaskForExecution, hscan] at h
    | some pr =>
      obtain ⟨r, ts'⟩ := pr
      simp [getTaskForExecution, hscan] at h
      obtain ⟨h1, h2⟩ := h
      subst h1
      obtain ⟨pre, post, e1, e2, e3, e4⟩ := claimScan_some now s.tasks r ts' hscan
      exact ⟨pre, post, e1, e2, e3, by rw [← h2, e4]⟩

/-- C2 witness: the general theorem applied to the concrete one-task registry
`demoState` at claim time 7. -/
theorem getTaskForExecution_first_pending_witness :
    (getTaskForExecution 7 demoState = (none, demoState) ↔
      ∀ t ∈ demoState.tasks, t.Status ≠ "pending") :=
  (getTaskForExecution_first_pending 7 demoState).1

/-- C1 is refuted by the code: on a registry holding the single pending task
{id 1, expression "1+1"}, the reply of getTaskForExecution is the Go range
variable `task` — the copy taken before the two writes, so its status is
still "pending" and its start time is still the zero value — while the
stored record is the one updated to "in_progress" with start time 42.  The
reply therefore does not match the mutated stored record. -/
theorem getTaskForExecution_returns_stale_copy :
    (getTaskForExecution 42 demoState).1 =
      some { ID := 1, Expression := "1+1", Status := "pending",
             Result := 0, StartTime := 0 } ∧
    (getTaskForExecution 42 demoState).2.tasks =
      [{ ID := 1, Expression := "1+1", Status := "in_progress",
         Result := 0, StartTime := 42 }] :=
  ⟨rfl, rfl⟩

/-! ### Frame lemmas for the handlers -/

theorem applyOp_operations (s : RegistryState) (op : Op) :
    (applyOp s op).operations = s.operations := by
  cases op with
  | create e => rfl
  | claim now =>
    simp only [applyOp, getTaskForExecution]
    cases claimScan now s.tasks with
    | none => rfl
    | some pr => obtain ⟨r, ts⟩ := pr; rfl
  | report rep => rfl
  | status q => rfl
  | listOps => rfl

theorem applyOp_taskIDCounter_le (s : RegistryState) (op : Op) :
    s.taskIDCounter ≤ (applyOp s op).taskIDCounter := by
  cases op with
  | create e => simp [applyOp, addTask]
  | claim now =>
    simp only [applyOp, getTaskForExecution]
    cases claimScan now s.tasks with
    | none => exact le_refl _
    | some pr => obtain ⟨r, ts⟩ := pr; exact le_refl _
  | report rep => exact le_refl _
  | status q => exact le_refl _
  | listOps => exact le_refl _

theorem foldl_operations (ops : List Op) (s : RegistryState) :
    (ops.foldl applyOp s).operations = s.operations := by
  induction ops generalizing s with
  | nil => rfl
  | cons op rest ih => rw [List.foldl_cons, ih, applyOp_operations]

/-- C8: after any serialized sequence of handler passes the operation list is
still the four catalog entries, in source order; moreover no single handler
pass ever changes the operation list, and getOperations is a total function
of the state (no failure mode). -/
theorem getOperations_stable (ops : List Op) (s : RegistryState) (op : Op) :
    getOperations (runOps ops) =
      [{ Operator := "+", Duration := 2 }, { Operator := "-", Duration := 2 },
       { Operator := "*", Duration := 4 }, { Operator := "/", Duration := 4 }] ∧
    (applyOp s op).operations = s.operations := by
  exact ⟨by rw [getOperations, runOps, foldl_operations]; rfl,
    applyOp_operations s op⟩

/-! ### Lemmas about the result-report loop -/

theorem replaceFirst_eq_self (rep : Task) (ts : List Task)
    (h : ∀ t ∈ ts, t.ID ≠ rep.ID) : replaceFirst rep ts = ts := by
  induction ts with
  | nil => rfl
  | cons t rest ih =>
    have hne : (t.ID == rep.ID) = false := by
      simp [h t (List.mem_cons_self t rest)]
    simp [replaceFirst, hne, ih fun u hu => h u (List.mem_cons_of_mem t hu)]

theorem replaceFirst_match (rep : Task) (ts : List Task)
    (h : ∃ t ∈ ts, t.ID = rep.ID) :
    ∃ pre t post, ts = pre ++ t :: post ∧ (∀ u ∈ pre, u.ID ≠ rep.ID) ∧
      t.ID = rep.ID ∧ replaceFirst rep ts = pre ++ rep :: post := by
  induction ts with
  | nil => simp at h
  | cons a rest ih =>
    by_cases ha : a.ID = rep.ID
    · exact ⟨[], a, rest, rfl, by simp, ha, by simp [replaceFirst, ha]⟩
    · obtain ⟨t, ht, hid⟩ := h
      rcases List.mem_cons.1 ht with h1 | h1
      · subst h1; exact absurd hid ha
      · obtain ⟨pre, t', post, e1, e2, e3, e4⟩ := ih ⟨t, h1, hid⟩
        refine ⟨a :: pre, t', post, by simp [e1], ?_, e3,
          by simp [replaceFirst, ha, e4]⟩
        intro u hu
        rcases List.mem_cons.1 hu with h2 | h2
        · subst h2; exact ha
        · exact e2 u h2

/-- C4: a result report whose id matches no stored task leaves the registry
state completely unchanged — a no-op — and still answers the success
acknowledgement 204 No Content. -/
theorem handleResult_unknown_id (rep : Task) (s : RegistryState)
    (h : ∀ t ∈ s.tasks, t.ID ≠ rep.ID) :
    handleResult rep s = (204, s) := by
  simp [handleResult, replaceFirst_eq_self rep s.tasks h]

/-- C4 witness: reporting id 9999 against the one-task registry `demoState`
is a no-op that still answers 204. -/
theorem handleResult_unknown_id_witness :
    handleResult repUnknown demoState = (204, demoState) :=
  handleResult_unknown_id repUnknown demoState (by decide)

/-- C9: a result report whose id matches a stored task replaces exactly the
first stored record with that id by the client-supplied record in full,
while the records before and after it, the list length, the id counter and
the operation list stay untouched (and the reply is again 204). -/
theorem handleResult_replaces_only_match (rep : Task) (s : RegistryState)
    (h : ∃ t ∈ s.tasks, t.ID = rep.ID) :
    (handleResult rep s).1 = 204 ∧
    (handleResult rep s).2.taskIDCounter = s.taskIDCounter ∧
    (handleResult rep s).2.operations = s.operations ∧
    (handleResult rep s).2.tasks.length = s.tasks.length ∧
    ∃ pre t post, s.tasks = pre ++ t :: post ∧ (∀ u ∈ pre, u.ID ≠ rep.ID) ∧
      t.ID = rep.ID ∧ (handleResult rep s).2.tasks = pre ++ rep :: post := by
  obtain ⟨pre, t, post, e1, e2, e3, e4⟩ := replaceFirst_match rep s.tasks h
  refine ⟨rfl, rfl, rfl, ?_, pre, t, post, e1, e2, e3, ?_⟩
  · show (replaceFirst rep s.tasks).length = s.tasks.length
    rw [e4, e1]
    simp
  · exact e4

/-- C9 witness: the general theorem applied to the report `repDone` against
the one-task registry `demoState`. -/
theorem handleResult_replaces_only_match_witness :
    (handleResult repDone demoState).2.tasks.length = demoState.tasks.length :=
  (handleResult_replaces_only_match repDone demoState (by decide)).2.2.2.1

/-! ### Monotonicity of the id counter and the created ids -/

theorem createdIds_gt (ops : List Op) (s : RegistryState) :
    ∀ id ∈ createdIds s ops, s.taskIDCounter < id := by
  induction ops generalizing s with
  | nil => simp [createdIds]
  | cons op rest ih =>
    intro id hid
    cases op with
    | create e =>
      simp only [createdIds] at hid
      rcases List.mem_cons.1 hid with h1 | h1
      · subst h1
        simp [addTask]
      · have h2 := ih (applyOp s (Op.create e)) id h1
        have h3 : (applyOp s (Op.create e)).taskIDCounter = s.taskIDCounter + 1 := by
          simp [applyOp, addTask]
        omega
    | claim now =>
      simp only [createdIds] at hid
      have h2 := ih _ id hid
      have h3 := applyOp_taskIDCounter_le s (Op.claim now)
      omega
    | report rep =>
      simp only [createdIds] at hid
      have h2 := ih _ id hid
      have h3 := applyOp_taskIDCounter_le s (Op.report rep)
      omega
    | status q =>
      simp only [createdIds] at hid
      have h2 := ih _ id hid
      have h3 := applyOp_taskIDCounter_le s (Op.status q)
      omega
    | listOps =>
      simp only [createdIds] at hid
      have h2 := ih _ id hid
      have h3 := applyOp_taskIDCounter_le s Op.listOps
      omega

theorem createdIds_pairwise (ops : List Op) (s : RegistryState) :
    List.Pairwise (· < ·) (createdIds s ops) := by
  induction ops generalizing s with
  | nil => simp [createdIds]
  | cons op rest ih =>
    cases op with
    | create e =>
      simp only [createdIds]
      refine List.Pairwise.cons ?_ (ih _)
      intro id hid
      have h2 := createdIds_gt rest (applyOp s (Op.create e)) id hid
      have h3 : (applyOp s (Op.create e)).taskIDCounter = s.taskIDCounter + 1 := by
        simp [applyOp, addTask]
      simp only [addTask]
      omega
    | claim now => simpa only [createdIds] using ih _
    | report rep => simpa only [createdIds] using ih _
    | status q => simpa only [createdIds] using ih _
    | listOps => simpa only [createdIds] using ih _

/-- C3: along any serialized run from process start, the ids answered by the
create steps are strictly increasing — hence pairwise distinct, and an id
once handed out is never handed out by a later create — and every one of
them is positive. -/
theorem createdIds_increasing_positive (ops : List Op) :
    List.Pairwise (· < ·) (createdIds initState ops) ∧
    ∀ id ∈ createdIds initState ops, 0 < id := by
  refine ⟨createdIds_pairwise ops initState, fun id hid => ?_⟩
  have h := createdIds_gt ops initState id hid
  simpa [initState] using h

/-! ### Claims against a registry with exactly one pending task -/

theorem getTaskForExecution_no_pending (now : Nat) (s : RegistryState)
    (h : pendingCount s.tasks = 0) : getTaskForExecution now s = (none, s) := by
  have hall : ∀ t ∈ s.tasks, t.Status ≠ "pending" := by
    intro t ht heq
    have h0 := List.countP_eq_zero.1 h t ht
    simp [heq] at h0
  simp [getTaskForExecution, (claimScan_none_iff now s.tasks).2 hall]

theorem getTaskForExecution_one_pending (now : Nat) (s : RegistryState)
    (h : pendingCount s.tasks = 1) :
    ∃ t s', getTaskForExecution now s = (some t, s') ∧ t ∈ s.tasks ∧
      t.Status = "pending" ∧ pendingCount s'.tasks = 0 := by
  cases hscan : claimScan now s.tasks with
  | none =>
    have hall := (claimScan_none_iff now s.tasks).1 hscan
    have h0 : pendingCount s.tasks = 0 := by
      refine List.countP_eq_zero.2 fun a ha => ?_
      simp [hall a ha]
    omega
  | some pr =>
    obtain ⟨ret, ts'⟩ := pr
    obtain ⟨pre, post, e1, e2, e3, e4⟩ := claimScan_some now s.tasks ret ts' hscan
    refine ⟨ret, { s with tasks := ts' },
      by simp [getTaskForExecution, hscan], by simp [e1], e3, ?_⟩
    have hpre : pendingCount pre = 0 := by
      refine List.countP_eq_zero.2 fun a ha => ?_
      simp [e2 a ha]
    have hsplit : pendingCount s.tasks =
        pendingCount pre + (pendingCount post + 1) := by
      rw [e1]
      simp [pendingCount, List.countP_append, List.countP_cons, e3]
    have hpost : pendingCount post = 0 := by omega
    show pendingCount ts' = 0
    rw [e4]
    simp only [pendingCount] at hpre hpost ⊢
    simp [List.countP_append, List.countP_cons, hpre, hpost]

theorem runClaims_no_pending (times : List Nat) (s : RegistryState)
    (h : pendingCount s.tasks = 0) :
    runClaims s times = (List.replicate times.length none, s) := by
  induction times with
  | nil => simp [runClaims]
  | cons now rest ih =>
    simp [runClaims, getTaskForExecution_no_pending now s h, ih,
      List.replicate_succ]

/-- C6: with the handlers serialized by the single registry mutex, a batch of
claim_next invocations against a registry holding exactly one pending task
hands that pending task to exactly one invocation (the first to enter the
critical section) and answers NotFound to all the others; in particular no
two of the invocations are handed the same task. -/
theorem claims_one_pending (s : RegistryState) (times : List Nat)
    (h1 : pendingCount s.tasks = 1) (h2 : times ≠ []) :
    ∃ t, t ∈ s.tasks ∧ t.Status = "pending" ∧
      (runClaims s times).1 = some t :: List.replicate (times.length - 1) none := by
  cases times with
  | nil => exact absurd rfl h2
  | cons now rest =>
    obtain ⟨t, s', e1, e2, e3, e4⟩ := getTaskForExecution_one_pending now s h1
    refine ⟨t, e2, e3, ?_⟩
    simp [runClaims, e1, runClaims_no_pending rest s' e4]

/-- C6 witness: two serialized claims against the one-pending-task registry
`demoState`: the first gets the task, the second gets NotFound. -/
theorem claims_one_pending_witness :
    ∃ t, t ∈ demoState.tasks ∧ t.Status = "pending" ∧
      (runClaims demoState [3, 4]).1 = some t :: List.replicate 1 none :=
  claims_one_pending demoState [3, 4] (by decide) (by decide)

/-! ### Status transitions -/

/-- C5 counterexample: create task 1, claim it (the stored status becomes
"in_progress"), then report it back with status "pending": handleResult's
unchecked overwrite regresses the stored status of task 1 from "in_progress"
back to "pending", so statuses do not only advance under sequences of
create, claim_next and report_result calls. -/
theorem report_regresses_status :
    taskStatus (runOps [Op.create "1+1", Op.claim 5]) 1 = some "in_progress" ∧
    taskStatus (runOps [Op.create "1+1", Op.claim 5,
      Op.report { ID := 1, Expression := "1+1", Status := "pending",
                  Result := 0, StartTime := 0 }]) 1 = some "pending" :=
  ⟨rfl, rfl⟩

/-- C5 amended: no task ever enters the registry with a status other than
"pending", and a create or claim step never regresses a stored status: the
task survives the step with its status either unchanged or advanced from
"pending" to "in_progress", and a task absent before the step can only
appear with status "pending".  The report step is excluded: it overwrites
the stored record with the client-supplied one unchecked, which is exactly
what the counterexample `report_regresses_status` exploits. -/
theorem status_advances_without_report (s : RegistryState) (op : Op) (id : Int)
    (hop : ∀ rep, op ≠ Op.report rep) :
    (∀ st, taskStatus s id = some st →
      ∃ st', taskStatus (applyOp s op) id = some st' ∧
        (st' = st ∨ (st = "pending" ∧ st' = "in_progress"))) ∧
    (taskStatus s id = none →
      ∀ st', taskStatus (applyOp s op) id = some st' → st' = "pending") := by
  cases op with
  | report rep => exact absurd rfl (hop rep)
  | status q =>
    exact ⟨fun st h => ⟨st, h, Or.inl rfl⟩,
      fun h st' h' => by rw [show applyOp s (Op.status q) = s from rfl, h] at h'; cases h'⟩
  | listOps =>
    exact ⟨fun st h => ⟨st, h, Or.inl rfl⟩,
      fun h st' h' => by rw [show applyOp s Op.listOps = s from rfl, h] at h'; cases h'⟩
  | create e =>
    have htasks : (applyOp s (Op.create e)).tasks =
        s.tasks ++ [(⟨s.taskIDCounter + 1, e, "pending", 0, 0⟩ : Task)] := rfl
    constructor
    · intro st h
      refine ⟨st, ?_, Or.inl rfl⟩
      simp only [taskStatus] at h ⊢
      rw [htasks, List.find?_append]
      cases hf : s.tasks.find? (fun t => t.ID == id) with
      | none => rw [hf] at h; simp at h
      | some t => rw [hf] at h; simpa using h
    · intro h st' h'
      simp only [taskStatus] at h h'
      rw [htasks, List.find?_append] at h'
      cases hf : s.tasks.find? (fun t => t.ID == id) with
      | some t => rw [hf] at h; simp at h
      | none =>
        rw [hf] at h'
        simp only [Option.none_or] at h'
        by_cases hp : (s.taskIDCounter + 1 : Int) = id
        · rw [List.find?_cons_of_pos _ (by simp [hp])] at h'
          rw [Option.map_some'] at h'
          exact (Option.some.inj h').symm
        · rw [List.find?_cons_of_neg _ (by simp [hp])] at h'
          simp at h'
  | claim now =>
    cases hscan : claimScan now s.tasks with
    | none =>
      have heq : applyOp s (Op.claim now) = s := by
        simp [applyOp, getTaskForExecution, hscan]
      rw [heq]
      exact ⟨fun st h => ⟨st, h, Or.inl rfl⟩,
        fun h st' h' => by rw [h] at h'; cases h'⟩
    | some pr =>
      obtain ⟨ret, ts'⟩ := pr
      obtain ⟨pre, post, e1, e2, e3, e4⟩ := claimScan_some now s.tasks ret ts' hscan
      have htasks : (applyOp s (Op.claim now)).tasks =
          pre ++ { ret with Status := "in_progress", StartTime := now } :: post := by
        simp [applyOp, getTaskForExecution, hscan, e4]
      have hid' : ({ ret with Status := "in_progress", StartTime := now } : Task).ID
          = ret.ID := rfl
      constructor
      · intro st h
        simp only [taskStatus, e1, List.find?_append] at h
        simp only [taskStatus, htasks, List.find?_append]
        cases hf : pre.find? (fun t => t.ID == id) with
        | some u =>
          rw [hf] at h
          exact ⟨st, by simpa using h, Or.inl rfl⟩
        | none =>
          rw [hf] at h
          simp only [Option.none_or] at h ⊢
          by_cases hp : ret.ID = id
          · rw [List.find?_cons_of_pos _ (by simp [hp])] at h
            rw [List.find?_cons_of_pos _ (by simp [hid', hp])]
            rw [Option.map_some'] at h
            have hst := Option.some.inj h
            refine ⟨"in_progress", by simp, Or.inr ⟨?_, rfl⟩⟩
            rw [← hst]
            exact e3
          · rw [List.find?_cons_of_neg _ (by simp [hp])] at h
            rw [List.find?_cons_of_neg _ (by simp [hid', hp])]
            exact ⟨st, h, Or.inl rfl⟩
      · intro h st' h'
        simp only [taskStatus, e1, List.find?_append] at h
        simp only [taskStatus, htasks, List.find?_append] at h'
        cases hf : pre.find? (fun t => t.ID == id) with
        | some u => rw [hf] at h; simp at h
        | none =>
          rw [hf] at h
          rw [hf] at h'
          simp only [Option.none_or] at h h'
          by_cases hp : ret.ID = id
          · rw [List.find?_cons_of_pos _ (by simp [hp])] at h
            simp at h
          · rw [List.find?_cons_of_neg _ (by simp [hp])] at h
            rw [List.find?_cons_of_neg _ (by simp [hid', hp])] at h'
            rw [h] at h'
            cases h'

/-- C5 amended witness: claiming against `demoState` advances the status of
task 1 from "pending": afterwards it reads "pending" unchanged or
"in_progress" (the run shows it is the latter). -/
theorem status_advances_without_report_witness :
    ∃ st', taskStatus (applyOp demoState (Op.claim 3)) 1 = some st' ∧
      (st' = "pending" ∨ ("pending" = "pending" ∧ st' = "in_progress")) :=
  (status_advances_without_report demoState (Op.claim 3) 1
    (fun _ h => nomatch h)).1 "pending" rfl

/-! ### Injectivity of the decimal rendering used by the status endpoint -/

theorem toDigitsCore_eq_digits10 (fuel : Nat) :
    ∀ (n : Nat) (ds : List Char), n < fuel →
      Nat.toDigitsCore 10 fuel n ds = digits10 n ++ ds := by
  induction fuel with
  | zero => intro n ds h; omega
  | succ f ih =>
    intro n ds h
    simp only [Nat.toDigitsCore]
    by_cases h0 : n / 10 = 0
    · have hlt : n < 10 := by omega
      rw [if_pos h0, digits10, dif_pos hlt, Nat.mod_eq_of_lt hlt]
      rfl
    · have h10 : 10 ≤ n := by
        by_contra hc
        exact h0 (Nat.div_eq_of_lt (by omega))
      have hdiv : n / 10 < f := by
        have := Nat.div_lt_self (show 0 < n by omega) (show (1 : Nat) < 10 by omega)
        omega
      rw [if_neg h0, ih (n / 10) _ hdiv]
      conv_rhs => rw [digits10]
      rw [dif_neg (show ¬ n < 10 by omega)]
      simp

theorem natRepr_eq_digits10 (n : Nat) : Nat.repr n = (digits10 n).asString := by
  rw [Nat.repr, Nat.toDigits,
    toDigitsCore_eq_digits10 (n + 1) n [] (Nat.lt_succ_self n), List.append_nil]

theorem digitVal_digitChar : ∀ n : Nat, n < 10 → digitVal (Nat.digitChar n) = n := by
  decide

theorem digitsVal_digits10 (n : Nat) : digitsVal (digits10 n) = n := by
  induction n using Nat.strong_induction_on with
  | _ n ih =>
    by_cases h : n < 10
    · rw [digits10, dif_pos h]
      simp only [digitsVal, List.foldl_cons, List.foldl_nil]
      rw [digitVal_digitChar n h]
      omega
    · rw [digits10, dif_neg h]
      have hdiv := Nat.div_lt_self (show 0 < n by omega) (show (1 : Nat) < 10 by omega)
      have ihv := ih (n / 10) hdiv
      simp only [digitsVal, List.foldl_append, List.foldl_cons, List.foldl_nil] at ihv ⊢
      rw [ihv, digitVal_digitChar (n % 10) (Nat.mod_lt n (by omega))]
      omega

theorem digits10_injective {m n : Nat} (h : digits10 m = digits10 n) : m = n := by
  have hm := digitsVal_digits10 m
  rw [h, digitsVal_digits10] at hm
  omega

theorem asString_injective {xs ys : List Char} (h : xs.asString = ys.asString) :
    xs = ys := by
  simpa [List.asString] using congrArg String.data h

theorem natRepr_injective {m n : Nat} (h : Nat.repr m = Nat.repr n) : m = n := by
  rw [natRepr_eq_digits10, natRepr_eq_digits10] at h
  exact digits10_injective (asString_injective h)

theorem intRepr_inj_nonneg {a b : Int} (ha : 0 ≤ a) (hb : 0 ≤ b)
    (h : Int.repr a = Int.repr b) : a = b := by
  cases a with
  | ofNat m =>
    cases b with
    | ofNat n =>
      simp only [Int.repr] at h
      exact congrArg Int.ofNat (natRepr_injective h)
    | negSucc n => exact absurd hb (Int.negSucc_lt_zero n).not_le
  | negSucc m => exact absurd ha (Int.negSucc_lt_zero m).not_le

/-! ### The reachable-state id invariant -/

theorem mem_replaceFirst (rep u : Task) (ts : List Task)
    (h : u ∈ replaceFirst rep ts) :
    u ∈ ts ∨ (u = rep ∧ ∃ t ∈ ts, t.ID = rep.ID) := by
  induction ts with
  | nil => simp [replaceFirst] at h
  | cons a rest ih =>
    by_cases ha : a.ID = rep.ID
    · rw [replaceFirst, if_pos (by simp [ha])] at h
      rcases List.mem_cons.1 h with h1 | h1
      · exact Or.inr ⟨h1, a, List.mem_cons_self a rest, ha⟩
      · exact Or.inl (List.mem_cons_of_mem a h1)
    · rw [replaceFirst, if_neg (by simp [ha])] at h
      rcases List.mem_cons.1 h with h1 | h1
      · exact Or.inl (h1 ▸ List.mem_cons_self a rest)
      · rcases ih h1 with h2 | ⟨h2, t, ht, hid⟩
        · exact Or.inl (List.mem_cons_of_mem a h2)
        · exact Or.inr ⟨h2, t, List.mem_cons_of_mem a ht, hid⟩

theorem applyOp_idsBounded (s : RegistryState) (op : Op) (h : idsBounded s) :
    idsBounded (applyOp s op) := by
  obtain ⟨hc, hts⟩ := h
  cases op with
  | create e =>
    constructor
    · show (0 : Int) ≤ s.taskIDCounter + 1
      omega
    · intro t ht
      show 0 ≤ t.ID ∧ t.ID ≤ s.taskIDCounter + 1
      rcases List.mem_append.1 ht with h1 | h1
      · have := hts t h1
        omega
      · have heq : t = ⟨s.taskIDCounter + 1, e, "pending", 0, 0⟩ := by
          simpa using h1
        subst heq
        simp
        omega
  | claim now =>
    cases hscan : claimScan now s.tasks with
    | none =>
      have heq : applyOp s (Op.claim now) = s := by
        simp [applyOp, getTaskForExecution, hscan]
      rw [heq]
      exact ⟨hc, hts⟩
    | some pr =>
      obtain ⟨ret, ts'⟩ := pr
      obtain ⟨pre, post, e1, e2, e3, e4⟩ := claimScan_some now s.tasks ret ts' hscan
      have hcnt : (applyOp s (Op.claim now)).taskIDCounter = s.taskIDCounter := by
        simp [applyOp, getTaskForExecution, hscan]
      have htk : (applyOp s (Op.claim now)).tasks = ts' := by
        simp [applyOp, getTaskForExecution, hscan]
      refine ⟨by rw [hcnt]; exact hc, ?_⟩
      intro t ht
      rw [hcnt]
      rw [htk, e4] at ht
      rcases List.mem_append.1 ht with h1 | h1
      · exact hts t (by rw [e1]; exact List.mem_append_left _ h1)
      · have hret : ret ∈ s.tasks := by
          rw [e1]
          exact List.mem_append_right _ (List.mem_cons_self ret post)
        rcases List.mem_cons.1 h1 with h2 | h2
        · have hb := hts ret hret
          subst h2
          simpa using hb
        · exact hts t (by
            rw [e1]
            exact List.mem_append_right _ (List.mem_cons_of_mem ret h2))
  | report rep =>
    refine ⟨hc, ?_⟩
    intro t ht
    have ht' : t ∈ replaceFirst rep s.tasks := ht
    rcases mem_replaceFirst rep t s.tasks ht' with h1 | ⟨h1, t0, ht0, hid⟩
    · exact hts t h1
    · have hb := hts t0 ht0
      subst h1
      rw [← hid]
      exact hb
  | status q => exact ⟨hc, hts⟩
  | listOps => exact ⟨hc, hts⟩

theorem foldl_idsBounded (ops : List Op) (s : RegistryState) (h : idsBounded s) :
    idsBounded (ops.foldl applyOp s) := by
  induction ops generalizing s with
  | nil => exact h
  | cons op rest ih => exact ih _ (applyOp_idsBounded s op h)

theorem runOps_idsBounded (ops : List Op) : idsBounded (runOps ops) :=
  foldl_idsBounded ops initState ⟨le_refl 0, by simp [initState]⟩

/-- C7: in any reachable registry state, creating a task with expression `e`
and immediately querying the returned id (rendered canonically, as the Go
client writes an integer id) yields exactly the fresh record: status
"pending", expression `e`, the zero-value result and the zero-value (unset)
start time. -/
theorem create_then_get_status (ops : List Op) (e : String) :
    getTaskStatus (Int.repr (addTask e (runOps ops)).1) (addTask e (runOps ops)).2 =
      some { ID := (addTask e (runOps ops)).1, Expression := e,
             Status := "pending", Result := 0, StartTime := 0 } := by
  obtain ⟨hc, hts⟩ := runOps_idsBounded ops
  simp only [getTaskStatus, addTask]
  rw [List.find?_append]
  have hnone : (runOps ops).tasks.find?
      (fun t => Int.repr t.ID == Int.repr ((runOps ops).taskIDCounter + 1)) = none := by
    rw [List.find?_eq_none]
    intro t ht hbeq
    have heq : Int.repr t.ID = Int.repr ((runOps ops).taskIDCounter + 1) := by
      simpa using hbeq
    have hid := intRepr_inj_nonneg (hts t ht).1 (by omega) heq
    have := (hts t ht).2
    omega
  rw [hnone, Option.none_or, List.find?_cons_of_pos _ (by simp)]

/-- C10: the status endpoint compares the raw query string with the
canonical decimal rendering of each stored id, so a lookup succeeds exactly
when some stored task's rendered id equals the query character for
character; on the registry holding task id 1, the queries "01", "+1" and
" 1" all signal NotFound although they denote the integer 1, while the
canonical "1" succeeds. -/
theorem getTaskStatus_raw_string_match (s : RegistryState) (q : String) :
    ((getTaskStatus q s).isSome ↔ ∃ t ∈ s.tasks, Int.repr t.ID = q) ∧
    getTaskStatus "01" demoState = none ∧
    getTaskStatus "+1" demoState = none ∧
    getTaskStatus " 1" demoState = none ∧
    getTaskStatus "1" demoState =
      some { ID := 1, Expression := "1+1", Status := "pending",
             Result := 0, StartTime := 0 } := by
  refine ⟨?_, rfl, rfl, rfl, rfl⟩
  rw [getTaskStatus, List.find?_isSome]
  constructor
  · rintro ⟨t, ht, hp⟩
    exact ⟨t, ht, by simpa using hp⟩
  · rintro ⟨t, ht, hp⟩
    exact ⟨t, ht, by simp [hp]⟩

end Bober
